import Mathlib

/-!
Shallow embedding of the gtfstoosm conversion core (src/gtfstoosm/utils.py,
src/gtfstoosm/osm.py, src/gtfstoosm/convert.py) and proofs about it.

Python machine behaviour is modelled explicitly:
* `random.randint(a, b)` is modelled by `randint a b draw`, where `draw` is an
  oracle value supplied from outside; the result is `none` exactly when the
  Python call raises `ValueError` (`a > b`), and for any in-range `draw` the
  returned value is `draw` itself, so every possible output of the Python call
  is a possible output of the model.
* CPython string hashing is modelled by an arbitrary integer parameter `h`
  standing for `hash(text)`; `h & 0x7FFFFFFF` equals `h % 2^31` because the
  mask keeps the low 31 bits of the two's-complement value.
* A Python call that omits a required positional argument raises `TypeError`
  before the callee's body runs; such calls are modelled by passing `none` for
  the omitted argument.
-/

namespace GtfsToOsm

/-- Python exceptions that the embedded fragments can raise. -/
inductive PyError where
  | typeError
  | valueError (msg : String)
deriving Repr, DecidableEq

/-! ## utils.py -/

/-- `utils.Trip` (pydantic model): trip_id, route_id, shape_id, stops. -/
structure Trip where
  trip_id : Int
  route_id : String
  shape_id : String
  stops : List Int
deriving Repr, DecidableEq

/-- `utils.string_to_unique_int`: `hash_value = hash(text) & 0x7FFFFFFF;
return hash_value % max_int`.  The argument `h` stands for `hash(text)`;
`h &&& 0x7FFFFFFF = h % 2^31` since the mask keeps the low 31 bits. -/
def string_to_unique_int (h : Int) (maxInt : Int := 2 ^ 31 - 1) : Int :=
  (h % 2 ^ 31) % maxInt

/-- The worker loop of `utils.deduplicate_trips`: `seen_stops` is the set of
already seen stop tuples (modelled as a list, used only through membership),
`unique_trips` is built by appending first occurrences. -/
def dedupAux (seen : List (List Int)) : List Trip → List Trip
  | [] => []
  | t :: ts =>
    if t.stops ∈ seen then dedupAux seen ts
    else t :: dedupAux (t.stops :: seen) ts

/-- `utils.deduplicate_trips`. -/
def deduplicate_trips (trips : List Trip) : List Trip :=
  dedupAux [] trips

/-- Specification-side characterisation (from the spec's words, for the
refinement comparison in C3): keep exactly the first occurrence of each
distinct stop sequence, in original relative order. -/
def firstOccurrences : List Trip → List Trip
  | [] => []
  | t :: ts =>
    t :: firstOccurrences (ts.filter (fun u => u.stops ≠ t.stops))
termination_by l => l.length
decreasing_by
  simp only [List.length_cons]
  exact Nat.lt_succ_of_le (List.length_filter_le _ _)

/-- `utils.calculate_direction`, on exact rational coordinates.  The source
compares the signed differences `lat_diff > lon_diff` (not their absolute
values) and contains the misspelling "Soutbound". -/
def calculate_direction (startC endC : ℚ × ℚ) : String :=
  let latDiff := endC.1 - startC.1
  let lonDiff := endC.2 - startC.2
  if latDiff > lonDiff then
    if startC.1 < endC.1 then "Northbound" else "Soutbound"
  else
    if startC.2 < endC.2 then "Eastbound" else "Westbound"

/-- Modelled from the spec (§4.5 direction suffix): dominant axis of
displacement by comparing absolute deltas, latitude winning ties. -/
def calculateDirectionSpec (startC endC : ℚ × ℚ) : String :=
  let latDiff := endC.1 - startC.1
  let lonDiff := endC.2 - startC.2
  if |latDiff| ≥ |lonDiff| then
    if latDiff ≥ 0 then "Northbound" else "Soutbound"
  else
    if lonDiff ≥ 0 then "Eastbound" else "Westbound"

/-! ## osm.py -/

/-- Python `dict[key] = value` on an insertion-ordered mapping: overwrite in
place when the key exists, else append. -/
def insertTag : List (String × String) → String → String → List (String × String)
  | [], k, v => [(k, v)]
  | (k', v') :: rest, k, v =>
    if k' = k then (k, v) :: rest else (k', v') :: insertTag rest k v

/-- `OSMElement.add_tag`: `if value is not None and value != "":
self.tags[key] = value`.  `none` models a Python `None` value.  Note the
source never checks whether the key already exists. -/
def addTag (tags : List (String × String)) (key : String) (value : Option String) :
    List (String × String) :=
  match value with
  | none => tags
  | some v => if v = "" then tags else insertTag tags key v

/-- `osm.RelationMember`: typed reference plus role. -/
structure RelationMember where
  type : String
  ref : Int
  role : String
deriving Repr, DecidableEq

/-- `osm.OSMRelation` (the fields the conversion core uses). -/
structure OSMRelation where
  id : Int
  tags : List (String × String)
  members : List RelationMember
deriving Repr, DecidableEq

/-- `OSMRelation.add_member(osm_type, ref, role)`.  `role` has no default in
the source, so a call site omitting it (modelled by `none`) raises
`TypeError`; otherwise the body validates `osm_type` and appends. -/
def addMember (r : OSMRelation) (osmType : String) (ref : Int)
    (role : Option String) : Except PyError OSMRelation :=
  match role with
  | none => .error .typeError
  | some role =>
    if osmType = "node" ∨ osmType = "way" ∨ osmType = "relation" then
      .ok { r with members := r.members ++ [⟨osmType, ref, role⟩] }
    else
      .error (.valueError "Invalid member type")

/-! ## convert.py -/

/-- `random.randint(lo, hi)` with an outside oracle `draw`: raises
(`none`) when `lo > hi`, otherwise returns a value in `[lo, hi]`; for
`draw ∈ [lo, hi]` the result is `draw` itself. -/
def randint (lo hi draw : Int) : Option Int :=
  if lo ≤ hi then some (lo + (draw - lo) % (hi - lo + 1)) else none

/-- Route relation id in `_process_routes`:
`-1 * random.randint(1, string_to_unique_int(route_ref))`. -/
def mkRouteRelationId (refHash draw : Int) : Option Int :=
  (randint 1 refHash draw).map (fun v => -1 * v)

/-- Route master relation id in `build_route_masters`:
`-1 * random.randint(1, 10**6)`. -/
def mkMasterId (draw : Int) : Int :=
  match randint 1 (10 ^ 6) draw with
  | some v => -1 * v
  | none => 0

/-- The ids assigned to the route relations of one run, in creation order:
each pattern carries the `hash(route_ref)` value and the oracle draw for its
`randint` call.  `none` models the run aborting with `ValueError` inside
`randint`. -/
def relationIds : List (Int × Int) → Option (List Int)
  | [] => some []
  | p :: ps => do
    let i ← mkRouteRelationId (string_to_unique_int p.1) p.2
    let rest ← relationIds ps
    pure (i :: rest)

/-- The member-adding tail of `_process_routes`: platform members for each
resolved stop object, then `relation.add_member(osm_type="way", ref=way_id)`
for each resolved way id — the latter call omits the required `role`. -/
def addRouteMembers (rel : OSMRelation) (stopObjectIds osmWayIds : List Int) :
    Except PyError OSMRelation := do
  let rel ← stopObjectIds.foldlM
    (fun r s => addMember r "node" s (some "platform")) rel
  osmWayIds.foldlM (fun r w => addMember r "way" w none) rel

/-- One row of the GTFS `routes` table, with the columns
`build_route_masters` reads. -/
structure RouteRow where
  route_id : String
  route_long_name : String
  route_color : Option String
deriving Repr, DecidableEq

/-- `variant.tags["ref"]` / `route.tags.get("ref")`. -/
def refTag (r : OSMRelation) : Option String :=
  r.tags.lookup "ref"

/-- The tag dictionary built for one route master (default configuration,
`relation_tags = None`). -/
def masterTags (row : RouteRow) : List (String × String) :=
  let base := [("type", "route_master"), ("route_master", "bus"),
    ("ref", row.route_id),
    ("name", ("Route " ++ row.route_id ++ " " ++ row.route_long_name).trim)]
  match row.route_color with
  | some c => base ++ [("route_color", "#" ++ c)]
  | none => base

/-- The per-row loop of `build_route_masters`: build the master, then
`master.add_member(osm_type="relation", ref=route.id)` for every relation in
the accumulated list whose ref tag equals the row's route_id — a call that
omits the required `role` — then append the master. -/
def buildMastersGo (acc : List OSMRelation) (rows : List RouteRow)
    (draws : List Int) : Except PyError (List OSMRelation) :=
  match rows with
  | [] => .ok acc
  | row :: rest =>
    let master : OSMRelation :=
      ⟨mkMasterId (draws.headD 1), masterTags row, []⟩
    match (acc.filter (fun rel => refTag rel = some row.route_id)).foldlM
        (fun m rel => addMember m "relation" rel.id none) master with
    | .error e => .error e
    | .ok m => buildMastersGo (acc ++ [m]) rest draws.tail

/-- `OSMRelationBuilder.build_route_masters`: `made_routes` is the set of ref
tags of the accumulated relations; `unique_routes` keeps the routes-table
rows whose `route_id` is in that set; then one master per such row. -/
def buildRouteMasters (relations : List OSMRelation) (routes : List RouteRow)
    (draws : List Int) : Except PyError (List OSMRelation) :=
  let madeRoutes := relations.filterMap refTag
  let uniqueRoutes := routes.filter (fun r => r.route_id ∈ madeRoutes)
  buildMastersGo relations uniqueRoutes draws

/-- An OSM node returned by the Overpass query in `_get_stop_objects`. -/
structure OsmNode where
  id : Int
  lat : ℚ
  lon : ℚ
deriving Repr, DecidableEq

/-- The inner candidate scan of `_get_stop_objects`: `closest_node = None;
min_distance = inf; for node in pool: if distance < min_distance and
distance <= max_distance: update`.  `dist` abstracts
`self._calculate_distance(stop, node)`. -/
def selectClosestAux (dist : OsmNode → ℚ) (maxD : ℚ) :
    List OsmNode → Option (OsmNode × ℚ) → Option (OsmNode × ℚ)
  | [], acc => acc
  | n :: rest, none =>
    if dist n ≤ maxD then selectClosestAux dist maxD rest (some (n, dist n))
    else selectClosestAux dist maxD rest none
  | n :: rest, some (c, m) =>
    if dist n < m ∧ dist n ≤ maxD then
      selectClosestAux dist maxD rest (some (n, dist n))
    else selectClosestAux dist maxD rest (some (c, m))

/-- The closest pool candidate within `maxD` of one input stop. -/
def selectClosest (dist : OsmNode → ℚ) (maxD : ℚ) (pool : List OsmNode) :
    Option OsmNode :=
  (selectClosestAux dist maxD pool none).map Prod.fst

/-- The per-stop assignment loop of `_get_stop_objects` (with
`add_missing_stops = False`): assign the closest candidate and remove it from
the pool (`all_osm_nodes.remove` removes the first equal element, i.e.
`List.erase`); an unmatched stop contributes nothing. -/
def matchStops (dist : ℚ × ℚ → OsmNode → ℚ) (maxD : ℚ) :
    List (ℚ × ℚ) → List OsmNode → List OsmNode
  | [], _ => []
  | s :: ss, pool =>
    match selectClosest (dist s) maxD pool with
    | some c => c :: matchStops dist maxD ss (pool.erase c)
    | none => matchStops dist maxD ss pool

/-- Outcome of one Overpass POST in `_get_stop_objects`. -/
inductive Outcome where
  | ok (elems : List Int)
  | rateLimited
  | otherError
  | exc
deriving Repr, DecidableEq

/-- What a `_get_stop_objects` call did: the elements returned, the number of
HTTP attempts issued, and the trace of `time.sleep` durations. -/
structure QueryResult where
  elems : List Int
  attempts : Nat
  sleeps : List Nat
deriving Repr, DecidableEq

/-- The retry loop of `_get_stop_objects`: `fuel = max_retries + 1 -
retry_count` (initially 4); HTTP 200 processes and breaks; 429/504 increments
the retry count and either sleeps 2 s and loops or breaks on exhaustion; any
other status or an exception breaks at once.  Elements accumulate only in the
200 branch, so every other exit returns the empty list. -/
def stopQueryLoop (oracle : Nat → Outcome) : Nat → Nat → QueryResult
  | 0, attempt => ⟨[], attempt, []⟩
  | fuel + 1, attempt =>
    match oracle attempt with
    | .ok es => ⟨es, attempt + 1, []⟩
    | .rateLimited =>
      if fuel = 0 then ⟨[], attempt + 1, []⟩
      else
        let r := stopQueryLoop oracle fuel (attempt + 1)
        ⟨r.elems, r.attempts, 2 :: r.sleeps⟩
    | .otherError => ⟨[], attempt + 1, []⟩
    | .exc => ⟨[], attempt + 1, []⟩

/-- `_get_stop_objects` at the retry/abort level: empty input returns at once
with no HTTP attempt; otherwise the retry loop runs with `max_retries = 3`. -/
def getStopObjects (stopsInput : List (ℚ × ℚ)) (oracle : Nat → Outcome) :
    QueryResult :=
  if stopsInput = [] then ⟨[], 0, []⟩
  else stopQueryLoop oracle 4 0

/-- `OSMRelationBuilder._get_osm_route_type` (convert.py).  `none` models a
value `int()` cannot convert. -/
def getOsmRouteType (v : Option Int) : String :=
  match v with
  | none => "bus"
  | some n =>
    if n = 0 then "tram"
    else if n = 1 then "subway"
    else if n = 2 then "train"
    else if n = 3 then "bus"
    else if n = 4 then "ferry"
    else if n = 5 then "trolleybus"
    else if n = 6 then "cable_car"
    else if n = 7 then "gondola"
    else if n = 11 then "trolleybus"
    else if n = 12 then "monorail"
    else "bus"

/-- `OSMBuilder._map_route_type` (gtfs.py): identical except `6 → aerialway`
and `7 → funicular`. -/
def mapRouteType (v : Option Int) : String :=
  match v with
  | none => "bus"
  | some n =>
    if n = 0 then "tram"
    else if n = 1 then "subway"
    else if n = 2 then "train"
    else if n = 3 then "bus"
    else if n = 4 then "ferry"
    else if n = 5 then "trolleybus"
    else if n = 6 then "aerialway"
    else if n = 7 then "funicular"
    else if n = 11 then "trolleybus"
    else if n = 12 then "monorail"
    else "bus"

/-! ## Lemmas about `deduplicate_trips` (claim C3) -/

theorem dedupAux_sublist (ts : List Trip) :
    ∀ seen, (dedupAux seen ts).Sublist ts := by
  induction ts with
  | nil => intro seen; simp [dedupAux]
  | cons t ts ih =>
    intro seen
    by_cases h : t.stops ∈ seen
    · simp only [dedupAux, if_pos h]
      exact (ih seen).cons t
    · simp only [dedupAux, if_neg h]
      exact (ih (t.stops :: seen)).cons₂ t

theorem stops_not_mem_of_mem_dedupAux (ts : List Trip) :
    ∀ seen x, x ∈ dedupAux seen ts → x.stops ∉ seen := by
  induction ts with
  | nil => intro seen x hx; simp [dedupAux] at hx
  | cons t ts ih =>
    intro seen x hx
    by_cases h : t.stops ∈ seen
    · rw [dedupAux, if_pos h] at hx
      exact ih seen x hx
    · rw [dedupAux, if_neg h] at hx
      rcases List.mem_cons.mp hx with rfl | hx
      · exact h
      · intro hmem
        exact ih (t.stops :: seen) x hx (List.mem_cons_of_mem _ hmem)

theorem dedupAux_pairwise (ts : List Trip) :
    ∀ seen, List.Pairwise (fun a b => a.stops ≠ b.stops) (dedupAux seen ts) := by
  induction ts with
  | nil => intro seen; simp [dedupAux]
  | cons t ts ih =>
    intro seen
    by_cases h : t.stops ∈ seen
    · rw [dedupAux, if_pos h]; exact ih seen
    · rw [dedupAux, if_neg h]
      refine List.Pairwise.cons ?_ (ih (t.stops :: seen))
      intro x hx
      have := stops_not_mem_of_mem_dedupAux ts (t.stops :: seen) x hx
      intro heq
      exact this (heq ▸ List.mem_cons_self _ _)

theorem firstOccurrences_nil : firstOccurrences [] = [] := by
  rw [firstOccurrences.eq_def]

theorem firstOccurrences_cons (t : Trip) (ts : List Trip) :
    firstOccurrences (t :: ts) =
      t :: firstOccurrences (ts.filter (fun u => u.stops ≠ t.stops)) := by
  rw [firstOccurrences.eq_def]

theorem dedupAux_eq_firstOccurrences (ts : List Trip) :
    ∀ seen, dedupAux seen ts =
      firstOccurrences (ts.filter (fun t => t.stops ∉ seen)) := by
  induction ts with
  | nil => intro seen; simp [dedupAux, firstOccurrences_nil]
  | cons t ts ih =>
    intro seen
    by_cases h : t.stops ∈ seen
    · rw [dedupAux, if_pos h, List.filter_cons, if_neg (by simp [h])]
      exact ih seen
    · rw [dedupAux, if_neg h, List.filter_cons, if_pos (by simp [h])]
      rw [firstOccurrences_cons, ih (t.stops :: seen), List.filter_filter]
      congr 1
      apply congrArg
      apply List.filter_congr
      intro u _
      by_cases h1 : u.stops = t.stops <;> by_cases h2 : u.stops ∈ seen <;>
        simp [h1, h2]

theorem dedupAux_eq_self (l : List Trip) :
    ∀ seen, (∀ x ∈ l, x.stops ∉ seen) →
      List.Pairwise (fun a b => a.stops ≠ b.stops) l → dedupAux seen l = l := by
  induction l with
  | nil => intro seen _ _; simp [dedupAux]
  | cons t ts ih =>
    intro seen hmem hpw
    have ht : t.stops ∉ seen := hmem t (List.mem_cons_self _ _)
    rw [dedupAux, if_neg ht]
    congr 1
    refine ih (t.stops :: seen) ?_ hpw.of_cons
    intro x hx
    simp only [List.mem_cons]
    push_neg
    exact ⟨fun heq => (List.pairwise_cons.mp hpw).1 x hx heq.symm |>.elim,
      hmem x (List.mem_cons_of_mem _ hx)⟩

/-! ## Lemmas about the nearest-stop scan (claim C6) -/

theorem selectClosestAux_ne_none (dist : OsmNode → ℚ) (maxD : ℚ)
    (pool : List OsmNode) :
    ∀ c m, selectClosestAux dist maxD pool (some (c, m)) ≠ none := by
  induction pool with
  | nil => intro c m; simp [selectClosestAux]
  | cons n rest ih =>
    intro c m
    rw [selectClosestAux]
    by_cases h : dist n < m ∧ dist n ≤ maxD
    · rw [if_pos h]; exact ih _ _
    · rw [if_neg h]; exact ih _ _

theorem selectClosestAux_mono (dist : OsmNode → ℚ) (maxD : ℚ)
    (pool : List OsmNode) :
    ∀ c m c' m', selectClosestAux dist maxD pool (some (c, m)) = some (c', m') →
      m' ≤ m := by
  induction pool with
  | nil =>
    intro c m c' m' h
    rw [selectClosestAux] at h
    injection h with h
    injection h with _ h
    exact le_of_eq h.symm
  | cons n rest ih =>
    intro c m c' m' h
    rw [selectClosestAux] at h
    by_cases hc : dist n < m ∧ dist n ≤ maxD
    · rw [if_pos hc] at h
      exact le_trans (ih _ _ _ _ h) (le_of_lt hc.1)
    · rw [if_neg hc] at h
      exact ih _ _ _ _ h

theorem selectClosestAux_min (dist : OsmNode → ℚ) (maxD : ℚ)
    (pool : List OsmNode) :
    ∀ acc c' m', selectClosestAux dist maxD pool acc = some (c', m') →
      ∀ n ∈ pool, dist n ≤ maxD → m' ≤ dist n := by
  induction pool with
  | nil => intro acc c' m' _ n hn; simp at hn
  | cons p rest ih =>
    intro acc c' m' h n hn hd
    rcases List.mem_cons.mp hn with rfl | hn
    · -- the head element itself
      match acc with
      | none =>
        rw [selectClosestAux, if_pos hd] at h
        exact selectClosestAux_mono dist maxD rest _ _ _ _ h
      | some (c, m) =>
        rw [selectClosestAux] at h
        by_cases hc : dist n < m ∧ dist n ≤ maxD
        · rw [if_pos hc] at h
          exact selectClosestAux_mono dist maxD rest _ _ _ _ h
        · rw [if_neg hc] at h
          have hm : m ≤ dist n := by
            by_contra hlt
            exact hc ⟨lt_of_not_le hlt, hd⟩
          exact le_trans (selectClosestAux_mono dist maxD rest _ _ _ _ h) hm
    · -- an element of the tail
      match acc with
      | none =>
        rw [selectClosestAux] at h
        by_cases hp : dist p ≤ maxD
        · rw [if_pos hp] at h
          exact ih _ _ _ h n hn hd
        · rw [if_neg hp] at h
          exact ih _ _ _ h n hn hd
      | some (c, m) =>
        rw [selectClosestAux] at h
        by_cases hp : dist p < m ∧ dist p ≤ maxD
        · rw [if_pos hp] at h
          exact ih _ _ _ h n hn hd
        · rw [if_neg hp] at h
          exact ih _ _ _ h n hn hd

theorem selectClosestAux_inv (dist : OsmNode → ℚ) (maxD : ℚ)
    (pool : List OsmNode) :
    ∀ acc c' m',
      (∀ c₀ m₀, acc = some (c₀, m₀) → m₀ = dist c₀ ∧ m₀ ≤ maxD) →
      selectClosestAux dist maxD pool acc = some (c', m') →
      (m' = dist c' ∧ m' ≤ maxD) ∧ (c' ∈ pool ∨ acc = some (c', m')) := by
  induction pool with
  | nil =>
    intro acc c' m' hacc h
    rw [selectClosestAux] at h
    exact ⟨hacc c' m' h, Or.inr h⟩
  | cons p rest ih =>
    intro acc c' m' hacc h
    match acc with
    | none =>
      rw [selectClosestAux] at h
      by_cases hp : dist p ≤ maxD
      · rw [if_pos hp] at h
        have := ih (some (p, dist p)) c' m'
          (by intro c₀ m₀ he; injection he with he; injection he with h1 h2;
              exact ⟨h2.symm ▸ h1 ▸ rfl, h2 ▸ h1 ▸ hp⟩) h
        rcases this with ⟨hv, hmem | heq⟩
        · exact ⟨hv, Or.inl (List.mem_cons_of_mem _ hmem)⟩
        · injection heq with heq
          injection heq with h1 _
          exact ⟨hv, Or.inl (h1 ▸ List.mem_cons_self _ _)⟩
      · rw [if_neg hp] at h
        have := ih none c' m' (by intro c₀ m₀ he; cases he) h
        rcases this with ⟨hv, hmem | heq⟩
        · exact ⟨hv, Or.inl (List.mem_cons_of_mem _ hmem)⟩
        · cases heq
    | some (c, m) =>
      rw [selectClosestAux] at h
      by_cases hp : dist p < m ∧ dist p ≤ maxD
      · rw [if_pos hp] at h
        have := ih (some (p, dist p)) c' m'
          (by intro c₀ m₀ he; injection he with he; injection he with h1 h2;
              exact ⟨h2.symm ▸ h1 ▸ rfl, h2 ▸ h1 ▸ hp.2⟩) h
        rcases this with ⟨hv, hmem | heq⟩
        · exact ⟨hv, Or.inl (List.mem_cons_of_mem _ hmem)⟩
        · injection heq with heq
          injection heq with h1 _
          exact ⟨hv, Or.inl (h1 ▸ List.mem_cons_self _ _)⟩
      · rw [if_neg hp] at h
        have := ih (some (c, m)) c' m'
          (by intro c₀ m₀ he; injection he with he; injection he with h1 h2;
              have := hacc c m rfl
              exact ⟨h2.symm ▸ h1 ▸ this.1, h2 ▸ this.2⟩) h
        rcases this with ⟨hv, hmem | heq⟩
        · exact ⟨hv, Or.inl (List.mem_cons_of_mem _ hmem)⟩
        · exact ⟨hv, Or.inr heq⟩

theorem selectClosest_some_spec (dist : OsmNode → ℚ) (maxD : ℚ)
    (pool : List OsmNode) (c : OsmNode)
    (h : selectClosest dist maxD pool = some c) :
    c ∈ pool ∧ dist c ≤ maxD ∧
      ∀ n ∈ pool, dist n ≤ maxD → dist c ≤ dist n := by
  rw [selectClosest] at h
  rcases Option.map_eq_some'.mp h with ⟨⟨c₁, m'⟩, haux, hfst⟩
  have hc : c = c₁ := hfst.symm
  subst hc
  have hinv := selectClosestAux_inv dist maxD pool none c m'
    (by intro c₀ m₀ he; cases he) haux
  rcases hinv with ⟨⟨hm, hle⟩, hmem | heq⟩
  · subst hm
    exact ⟨hmem, hle,
      fun n hn hd =>
        selectClosestAux_min dist maxD pool none c (dist c) haux n hn hd⟩
  · cases heq

theorem selectClosestAux_none_forall (dist : OsmNode → ℚ) (maxD : ℚ)
    (pool : List OsmNode) :
    selectClosestAux dist maxD pool none = none →
      ∀ n ∈ pool, ¬ dist n ≤ maxD := by
  induction pool with
  | nil => intro _ n hn; simp at hn
  | cons p rest ih =>
    intro h n hn
    rw [selectClosestAux] at h
    by_cases hp : dist p ≤ maxD
    · rw [if_pos hp] at h
      exact absurd h (selectClosestAux_ne_none dist maxD rest _ _)
    · rw [if_neg hp] at h
      rcases List.mem_cons.mp hn with rfl | hn
      · exact hp
      · exact ih h n hn

theorem selectClosest_none_spec (dist : OsmNode → ℚ) (maxD : ℚ)
    (pool : List OsmNode) (h : selectClosest dist maxD pool = none) :
    ∀ n ∈ pool, maxD < dist n := by
  intro n hn
  rcases haux : selectClosestAux dist maxD pool none with _ | ⟨c', m'⟩
  · exact lt_of_not_le (selectClosestAux_none_forall dist maxD pool haux n hn)
  · rw [selectClosest, haux] at h; cases h

theorem mem_pool_of_mem_matchStops (dist : ℚ × ℚ → OsmNode → ℚ) (maxD : ℚ)
    (ss : List (ℚ × ℚ)) :
    ∀ pool x, x ∈ matchStops dist maxD ss pool → x ∈ pool := by
  induction ss with
  | nil => intro pool x hx; simp [matchStops] at hx
  | cons s ss ih =>
    intro pool x hx
    rw [matchStops] at hx
    rcases hsel : selectClosest (dist s) maxD pool with _ | c
    · rw [hsel] at hx
      exact ih pool x hx
    · rw [hsel] at hx
      rcases List.mem_cons.mp hx with rfl | hx
      · exact (selectClosest_some_spec _ _ _ _ hsel).1
      · exact List.mem_of_mem_erase (ih (pool.erase c) x hx)

theorem matchStops_nodup (dist : ℚ × ℚ → OsmNode → ℚ) (maxD : ℚ)
    (ss : List (ℚ × ℚ)) :
    ∀ pool, pool.Nodup → (matchStops dist maxD ss pool).Nodup := by
  induction ss with
  | nil => intro pool _; simp [matchStops]
  | cons s ss ih =>
    intro pool hnd
    rw [matchStops]
    rcases hsel : selectClosest (dist s) maxD pool with _ | c
    · exact ih pool hnd
    · refine List.nodup_cons.mpr ⟨?_, ih (pool.erase c) (hnd.erase c)⟩
      intro hc
      have := mem_pool_of_mem_matchStops dist maxD ss (pool.erase c) c hc
      exact ((hnd.mem_erase_iff).mp this).1 rfl

/-! ## Lemmas about the retry loop (claim C7) -/

theorem stopQueryLoop_attempts_le (oracle : Nat → Outcome) :
    ∀ fuel attempt, (stopQueryLoop oracle fuel attempt).attempts ≤ attempt + fuel := by
  intro fuel
  induction fuel with
  | zero => intro attempt; simp [stopQueryLoop]
  | succ f ih =>
    intro attempt
    rcases ho : oracle attempt with es | _ | _ | _
    case ok =>
      simp only [stopQueryLoop, ho]
      show attempt + 1 ≤ attempt + (f + 1)
      omega
    case rateLimited =>
      simp only [stopQueryLoop, ho]
      by_cases hf : f = 0
      · rw [if_pos hf]
        show attempt + 1 ≤ attempt + (f + 1)
        omega
      · rw [if_neg hf]
        show (stopQueryLoop oracle f (attempt + 1)).attempts ≤ attempt + (f + 1)
        have hr := ih (attempt + 1)
        omega
    case otherError =>
      simp only [stopQueryLoop, ho]
      show attempt + 1 ≤ attempt + (f + 1)
      omega
    case exc =>
      simp only [stopQueryLoop, ho]
      show attempt + 1 ≤ attempt + (f + 1)
      omega

theorem stopQueryLoop_rl_step (oracle : Nat → Outcome) (f a : Nat)
    (h : oracle a = .rateLimited) (hf : f ≠ 0) :
    stopQueryLoop oracle (f + 1) a =
      ⟨(stopQueryLoop oracle f (a + 1)).elems,
       (stopQueryLoop oracle f (a + 1)).attempts,
       2 :: (stopQueryLoop oracle f (a + 1)).sleeps⟩ := by
  rw [stopQueryLoop, h, if_neg hf]

theorem stopQueryLoop_rl_exhaust (oracle : Nat → Outcome) (a : Nat)
    (h : oracle a = .rateLimited) :
    stopQueryLoop oracle 1 a = ⟨[], a + 1, []⟩ := by
  rw [stopQueryLoop, h]
  rfl

theorem stopQueryLoop_abort (oracle : Nat → Outcome) (f a : Nat)
    (h : oracle a = Outcome.otherError ∨ oracle a = Outcome.exc) :
    stopQueryLoop oracle (f + 1) a = ⟨[], a + 1, []⟩ := by
  rcases h with h | h <;> rw [stopQueryLoop, h]

/-! ## Lemmas about id generation (claims C9, C10) -/

theorem randint_some_bounds (lo hi draw v : Int)
    (h : randint lo hi draw = some v) : lo ≤ v ∧ v ≤ hi := by
  rw [randint] at h
  by_cases hle : lo ≤ hi
  · rw [if_pos hle] at h
    injection h with h
    subst h
    constructor
    · have := Int.emod_nonneg (draw - lo) (by omega : hi - lo + 1 ≠ 0)
      omega
    · have := Int.emod_lt_of_pos (draw - lo) (by omega : (0:ℤ) < hi - lo + 1)
      omega
  · rw [if_neg hle] at h
    cases h

theorem mkRouteRelationId_neg (refHash draw v : Int)
    (h : mkRouteRelationId refHash draw = some v) : v < 0 := by
  rw [mkRouteRelationId] at h
  rcases hr : randint 1 refHash draw with _ | w
  · rw [hr] at h; cases h
  · rw [hr, Option.map_some'] at h
    injection h with h
    have hw := (randint_some_bounds 1 refHash draw w hr).1
    omega

theorem relationIds_neg (patterns : List (Int × Int)) :
    ∀ ids, relationIds patterns = some ids → ∀ x ∈ ids, x < 0 := by
  induction patterns with
  | nil =>
    intro ids h x hx
    rw [relationIds] at h
    injection h with h
    subst h
    simp at hx
  | cons p ps ih =>
    intro ids h x hx
    rw [relationIds] at h
    rcases hi : mkRouteRelationId (string_to_unique_int p.1) p.2 with _ | i
    · rw [hi] at h; cases h
    · rw [hi] at h
      rcases hrest : relationIds ps with _ | rest
      · rw [hrest] at h; cases h
      · rw [hrest] at h
        simp only [Option.bind_some, Option.pure_def] at h
        injection h with h
        subst h
        rcases List.mem_cons.mp hx with rfl | hx
        · exact mkRouteRelationId_neg _ _ _ hi
        · exact ih rest hrest x hx

theorem mkMasterId_neg (draw : Int) : mkMasterId draw < 0 := by
  rw [mkMasterId]
  rcases hr : randint 1 (10 ^ 6) draw with _ | v
  · rw [randint] at hr
    rw [if_pos (by norm_num)] at hr
    cases hr
  · have := (randint_some_bounds 1 (10 ^ 6) draw v hr).1
    simp only []
    omega

/-! ## Claim theorems -/

/-- Claim C1: in `_process_routes`, the claimed member layout (platform nodes
then role-less ways) and normal completion fail on the source: the stop
members are appended as claimed, but `relation.add_member(osm_type="way",
ref=way_id)` omits the required `role` argument, so construction raises
`TypeError` as soon as the resolved way list is non-empty. -/
theorem c1_route_members :
    addRouteMembers ⟨-7, [("type", "route")], []⟩ [101, 102] [] =
      .ok ⟨-7, [("type", "route")],
        [⟨"node", 101, "platform"⟩, ⟨"node", 102, "platform"⟩]⟩ ∧
    addRouteMembers ⟨-7, [("type", "route")], []⟩ [101, 102] [555] =
      .error .typeError := by
  constructor <;> rfl

/-- Claim C2: `build_route_masters` does not satisfy the claim: on the normal
input (a route relation whose ref tag equals a routes-table `route_id`) the
member-adding call `master.add_member(osm_type="relation", ref=route.id)`
omits the required `role` argument and raises `TypeError`; and when the ref
tags (which hold `route_short_name`) differ from every `route_id`, zero
masters are emitted for a ref that has a route relation. -/
theorem c2_route_masters :
    buildRouteMasters [⟨-5, [("ref", "10")], []⟩] [⟨"10", "Main St", none⟩] [1] =
      .error .typeError ∧
    buildRouteMasters [⟨-5, [("ref", "Blue")], []⟩] [⟨"R1", "Main St", none⟩] [1] =
      .ok [⟨-5, [("ref", "Blue")], []⟩] := by
  constructor <;> rfl

/-- Claim C3: `deduplicate_trips` keeps no two trips with equal stop
sequences, is a subsequence of the input equal to the first-occurrence
subsequence (equality judged on the stops field only), and is idempotent. -/
theorem c3_deduplicate_trips (P : List Trip) :
    List.Pairwise (fun a b => a.stops ≠ b.stops) (deduplicate_trips P) ∧
    (deduplicate_trips P).Sublist P ∧
    deduplicate_trips P = firstOccurrences P ∧
    deduplicate_trips (deduplicate_trips P) = deduplicate_trips P := by
  refine ⟨dedupAux_pairwise P [], dedupAux_sublist P [], ?_, ?_⟩
  · rw [deduplicate_trips, dedupAux_eq_firstOccurrences P []]
    congr 1
    simp
  · rw [deduplicate_trips, deduplicate_trips]
    exact dedupAux_eq_self (dedupAux [] P) [] (by simp) (dedupAux_pairwise P [])

/-- Claim C4 counterexample: the claim asserts that the GTFS-route-type
mapping sends 6 to "cable_car", but the gtfs.py mapping
(`OSMBuilder._map_route_type`, one of the claim's cited symbols) sends 6 to
"aerialway". -/
theorem c4_route_type_cex :
    mapRouteType (some 6) = "aerialway" ∧
    mapRouteType (some 6) ≠ "cable_car" := by
  constructor
  · rfl
  · decide

/-- Claim C4 (amended): the convert.py mapping
(`OSMRelationBuilder._get_osm_route_type`) is exactly as claimed, with "bus"
for every unmapped integer and every non-convertible value; the gtfs.py
mapping (`OSMBuilder._map_route_type`) agrees except it returns "aerialway"
for 6 and "funicular" for 7. -/
theorem c4_route_type_map :
    getOsmRouteType (some 0) = "tram" ∧ getOsmRouteType (some 1) = "subway" ∧
    getOsmRouteType (some 2) = "train" ∧ getOsmRouteType (some 3) = "bus" ∧
    getOsmRouteType (some 4) = "ferry" ∧
    getOsmRouteType (some 5) = "trolleybus" ∧
    getOsmRouteType (some 6) = "cable_car" ∧
    getOsmRouteType (some 7) = "gondola" ∧
    getOsmRouteType (some 11) = "trolleybus" ∧
    getOsmRouteType (some 12) = "monorail" ∧
    getOsmRouteType none = "bus" ∧
    (∀ n : Int, n ∉ ([0, 1, 2, 3, 4, 5, 6, 7, 11, 12] : List Int) →
      getOsmRouteType (some n) = "bus") ∧
    mapRouteType (some 6) = "aerialway" ∧ mapRouteType (some 7) = "funicular" ∧
    mapRouteType none = getOsmRouteType none ∧
    (∀ n : Int, n ≠ 6 → n ≠ 7 →
      mapRouteType (some n) = getOsmRouteType (some n)) := by
  refine ⟨rfl, rfl, rfl, rfl, rfl, rfl, rfl, rfl, rfl, rfl, rfl, ?_,
    rfl, rfl, rfl, ?_⟩
  · intro n hn
    simp only [List.mem_cons, List.not_mem_nil, or_false] at hn
    push_neg at hn
    rw [getOsmRouteType]
    split_ifs <;> first | rfl | (exfalso; omega)
  · intro n h6 h7
    by_cases k0 : n = 0
    · subst k0; rfl
    by_cases k1 : n = 1
    · subst k1; rfl
    by_cases k2 : n = 2
    · subst k2; rfl
    by_cases k3 : n = 3
    · subst k3; rfl
    by_cases k4 : n = 4
    · subst k4; rfl
    by_cases k5 : n = 5
    · subst k5; rfl
    by_cases k11 : n = 11
    · subst k11; rfl
    by_cases k12 : n = 12
    · subst k12; rfl
    rw [mapRouteType, getOsmRouteType]
    rw [if_neg k0, if_neg k1, if_neg k2, if_neg k3, if_neg k4, if_neg k5,
      if_neg h6, if_neg h7, if_neg k11, if_neg k12]
    rw [if_neg k0, if_neg k1, if_neg k2, if_neg k3, if_neg k4, if_neg k5,
      if_neg h6, if_neg h7]

/-- Claim C4 witness: the amended universal parts at the concrete
input 999. -/
theorem c4_route_type_map_witness :
    getOsmRouteType (some 999) = "bus" ∧
    mapRouteType (some 999) = getOsmRouteType (some 999) := by
  have h := c4_route_type_map
  exact ⟨h.2.2.2.2.2.2.2.2.2.2.2.1 999 (by decide),
    h.2.2.2.2.2.2.2.2.2.2.2.2.2.2.2 999 (by decide) (by decide)⟩

/-- Claim C5: `calculate_direction` compares the signed deltas, not their
absolute values, so the claimed dominant-axis rule fails on the code: on the
repository's own southbound test input (start (41,-74), end (40,-74)) the
latitude delta dominates in absolute value yet the code answers "Westbound";
on the westbound test input it answers "Soutbound".  The spec-side
dominant-axis rule gives the claimed answers. -/
theorem c5_calculate_direction :
    calculate_direction (41, -74) (40, -74) = "Westbound" ∧
    calculateDirectionSpec (41, -74) (40, -74) = "Soutbound" ∧
    calculate_direction (40, -74) (40, -75) = "Soutbound" ∧
    calculateDirectionSpec (40, -74) (40, -75) = "Westbound" := by
  refine ⟨?_, ?_, ?_, ?_⟩ <;>
    simp only [calculate_direction, calculateDirectionSpec] <;> norm_num

/-- Claim C6 counterexample: the claim requires a candidate to be assigned
only when its distance is strictly below the search radius, but the source
test is `distance <= max_distance`: a candidate at distance exactly equal to
the radius is assigned. -/
theorem c6_stop_matching_cex :
    matchStops (fun _ _ => (10 : ℚ)) 10 [((0 : ℚ), (0 : ℚ))] [⟨1, 0, 0⟩] =
      [⟨1, 0, 0⟩] ∧ ¬ ((10 : ℚ) < 10) := by
  constructor
  · rfl
  · decide

/-- Claim C6 (amended): each input stop, in order, is assigned the remaining
pool candidate with the smallest distance provided that distance is less
than or equal to the search radius (none when every remaining candidate is
strictly beyond it); an assigned candidate is removed from the pool, so with
a duplicate-free pool every candidate is assigned to at most one stop. -/
theorem c6_stop_matching (dist : ℚ × ℚ → OsmNode → ℚ) (maxD : ℚ) :
    (∀ (f : OsmNode → ℚ) pool c, selectClosest f maxD pool = some c →
      c ∈ pool ∧ f c ≤ maxD ∧ ∀ n ∈ pool, f n ≤ maxD → f c ≤ f n) ∧
    (∀ (f : OsmNode → ℚ) pool, selectClosest f maxD pool = none →
      ∀ n ∈ pool, maxD < f n) ∧
    (∀ ss pool x, x ∈ matchStops dist maxD ss pool → x ∈ pool) ∧
    (∀ ss pool, pool.Nodup → (matchStops dist maxD ss pool).Nodup) := by
  exact ⟨fun f pool c h => selectClosest_some_spec f maxD pool c h,
    fun f pool h => selectClosest_none_spec f maxD pool h,
    fun ss pool x h => mem_pool_of_mem_matchStops dist maxD ss pool x h,
    fun ss pool h => matchStops_nodup dist maxD ss pool h⟩

/-- Claim C6 witness: the amended statement applied at a concrete pool. -/
theorem c6_stop_matching_witness :
    (⟨1, 3, 0⟩ : OsmNode) ∈ [(⟨1, 3, 0⟩ : OsmNode)] ∧
    (3 : ℚ) ≤ 5 ∧
    (∀ n ∈ [(⟨1, 3, 0⟩ : OsmNode)], n.lat ≤ 5 → (3 : ℚ) ≤ n.lat) := by
  have h := (c6_stop_matching (fun _ _ => 0) 5).1 (fun n => n.lat)
    [⟨1, 3, 0⟩] ⟨1, 3, 0⟩ (by decide)
  exact h

/-- Claim C7: the stop query issues no request on empty input; on rate
limiting it makes at most 4 attempts (3 retries) with 2-second sleeps
between attempts and returns the empty partial result on exhaustion; on any
other error status or an exception it stops right after that attempt, and
its attempt count never exceeds 4. -/
theorem c7_stop_query_retry :
    (∀ stops oracle, (getStopObjects stops oracle).attempts ≤ 4) ∧
    (∀ (s : ℚ × ℚ) ss oracle, (∀ i, i < 4 → oracle i = .rateLimited) →
      getStopObjects (s :: ss) oracle = ⟨[], 4, [2, 2, 2]⟩) ∧
    (∀ (s : ℚ × ℚ) ss oracle j, j < 4 →
      (∀ i, i < j → oracle i = .rateLimited) →
      (oracle j = .otherError ∨ oracle j = .exc) →
      getStopObjects (s :: ss) oracle = ⟨[], j + 1, List.replicate j 2⟩) ∧
    (∀ oracle, getStopObjects [] oracle = ⟨[], 0, []⟩) := by
  refine ⟨?_, ?_, ?_, ?_⟩
  · intro stops oracle
    rw [getStopObjects]
    split
    · simp
    · simpa using stopQueryLoop_attempts_le oracle 4 0
  · intro s ss oracle h
    have h0 := h 0 (by omega)
    have h1 := h 1 (by omega)
    have h2 := h 2 (by omega)
    have h3 := h 3 (by omega)
    rw [getStopObjects, if_neg (by simp)]
    rw [stopQueryLoop_rl_step oracle 3 0 h0 (by omega)]
    rw [stopQueryLoop_rl_step oracle 2 1 h1 (by omega)]
    rw [stopQueryLoop_rl_step oracle 1 2 h2 (by omega)]
    rw [stopQueryLoop_rl_exhaust oracle 3 h3]
  · intro s ss oracle j hj hpre hj'
    rw [getStopObjects, if_neg (by simp)]
    interval_cases j
    · rw [stopQueryLoop_abort oracle 3 0 hj']
      rfl
    · have h0 := hpre 0 (by omega)
      rw [stopQueryLoop_rl_step oracle 3 0 h0 (by omega),
        stopQueryLoop_abort oracle 2 1 hj']
      rfl
    · have h0 := hpre 0 (by omega)
      have h1 := hpre 1 (by omega)
      rw [stopQueryLoop_rl_step oracle 3 0 h0 (by omega),
        stopQueryLoop_rl_step oracle 2 1 h1 (by omega),
        stopQueryLoop_abort oracle 1 2 hj']
      rfl
    · have h0 := hpre 0 (by omega)
      have h1 := hpre 1 (by omega)
      have h2 := hpre 2 (by omega)
      rw [stopQueryLoop_rl_step oracle 3 0 h0 (by omega),
        stopQueryLoop_rl_step oracle 2 1 h1 (by omega),
        stopQueryLoop_rl_step oracle 1 2 h2 (by omega),
        stopQueryLoop_abort oracle 0 3 hj']
      rfl
  · intro oracle
    rw [getStopObjects, if_pos rfl]

/-- Claim C7 witness: the retry contract applied to concrete oracles. -/
theorem c7_stop_query_retry_witness :
    getStopObjects [((0 : ℚ), (0 : ℚ))] (fun _ => .rateLimited) =
      ⟨[], 4, [2, 2, 2]⟩ ∧
    getStopObjects [((0 : ℚ), (0 : ℚ))] (fun _ => .otherError) =
      ⟨[], 1, []⟩ := by
  refine ⟨c7_stop_query_retry.2.1 (0, 0) [] _ (fun i _ => rfl), ?_⟩
  have h := c7_stop_query_retry.2.2.1 (0, 0) [] (fun _ => .otherError) 0
    (by omega) (fun i hi => absurd hi (by omega)) (Or.inl rfl)
  simpa using h

/-- Claim C8: adding a relation member with an invalid type raises
`ValueError` as claimed, but `OSMElement.add_tag` on an existing key does not
raise: it silently overwrites the previous value (the repository's own test
`test_add_tag_duplicate_key_raises_error` demands `ValueError`). -/
theorem c8_tag_member_invariants :
    addMember ⟨1, [], []⟩ "invalid_type" 100 (some "stop") =
      .error (.valueError "Invalid member type") ∧
    addTag [("name", "Test Stop")] "name" (some "Another Name") =
      [("name", "Another Name")] := by
  constructor <;> rfl

/-- Claim C9 counterexample: two patterns with the same route ref hash and
the same (perfectly possible) random draw receive the same identifier, so
identifiers are not unique within a run. -/
theorem c9_relation_ids_cex :
    relationIds [(100, 5), (100, 5)] = some [-5, -5] ∧
    ¬ ([-5, -5] : List Int).Nodup := by
  constructor
  · rfl
  · decide

/-- Claim C9 (amended): every relation identifier a run accumulates (route
relations and route masters alike) is a negative integer; uniqueness within
the run is not guaranteed, since independent bounded random draws can
collide. -/
theorem c9_relation_ids (patterns : List (Int × Int)) (ids : List Int)
    (h : relationIds patterns = some ids) :
    (∀ x ∈ ids, x < 0) ∧ (∀ d : Int, mkMasterId d < 0) :=
  ⟨relationIds_neg patterns ids h, mkMasterId_neg⟩

/-- Claim C9 witness: the amended statement at a concrete run. -/
theorem c9_relation_ids_witness :
    ((-5 : Int) < 0) ∧ mkMasterId 3 < 0 := by
  have h := c9_relation_ids [(100, 5)] [-5] (by rfl)
  exact ⟨h.1 (-5) (by decide), h.2 3⟩

/-- Claim C10: `string_to_unique_int` always lies in `[0, 2^31 - 1)`; the
value 0 is attained (masked hash 0 or `2^31 - 1`); when it is 0 the id draw
`random.randint(1, 0)` raises; and the route-relation id draw succeeds
exactly when the hash value is at least 1. -/
theorem c10_hash_range :
    (∀ h : Int, 0 ≤ string_to_unique_int h ∧
      string_to_unique_int h < 2 ^ 31 - 1) ∧
    string_to_unique_int 0 = 0 ∧
    string_to_unique_int (2 ^ 31 - 1) = 0 ∧
    (∀ h draw : Int, string_to_unique_int h = 0 →
      randint 1 (string_to_unique_int h) draw = none) ∧
    (∀ h draw : Int,
      (mkRouteRelationId (string_to_unique_int h) draw).isSome ↔
        1 ≤ string_to_unique_int h) := by
  refine ⟨?_, rfl, by decide, ?_, ?_⟩
  · intro h
    constructor
    · exact Int.emod_nonneg _ (by norm_num)
    · exact Int.emod_lt_of_pos _ (by norm_num)
  · intro h draw h0
    rw [h0, randint, if_neg (by norm_num)]
  · intro h draw
    rw [mkRouteRelationId, randint]
    by_cases h1 : (1 : ℤ) ≤ string_to_unique_int h
    · rw [if_pos h1]
      simpa using h1
    · rw [if_neg h1]
      simpa using h1

/-- Claim C10 witness: the range, the raising draw at hash 0, and a
succeeding draw at a positive hash value. -/
theorem c10_hash_range_witness :
    (0 ≤ string_to_unique_int 7 ∧ string_to_unique_int 7 < 2 ^ 31 - 1) ∧
    randint 1 (string_to_unique_int 0) 3 = none ∧
    ((mkRouteRelationId (string_to_unique_int 7) 3).isSome ↔
      1 ≤ string_to_unique_int 7) := by
  exact ⟨c10_hash_range.1 7, c10_hash_range.2.2.2.1 0 3 rfl,
    c10_hash_range.2.2.2.2 7 3⟩

end GtfsToOsm
